import Mathlib

/-!
Shallow embedding of the FantasyStats repository (src/fantasy_stats.py and
src/main.py) and verification of the frozen claims about its specification.

Player point totals (Python floats used only through addition, comparison and
maximum) are modelled as rationals.  A Python exception is modelled by an
`Option` result being `none`.  Position tags and team names are strings, as in
the source.
-/

namespace FantasyStats

/-- One lineup entry, as consumed by `_get_perfect_score`: a position tag and a
realized point total for the week. -/
structure PlayerWeek where
  position : String
  points : ℚ
deriving DecidableEq

/-- The positional slot configuration held by the `FantasyStats` constructor
(`num_qb`, `num_rb`, `num_wr`, `num_te`, `num_flex`, `num_dst`, `num_k`).
Counts are integers, as in Python, so that negative counts can be discussed. -/
structure RosterSlotConfig where
  qb : Int
  rb : Int
  wr : Int
  te : Int
  flex : Int
  dst : Int
  k : Int
deriving DecidableEq

/-- The constructor defaults: `qb=1, rb=2, wr=3, te=1, flex=1, dst=1, k=1`. -/
def default_config : RosterSlotConfig := ⟨1, 2, 3, 1, 1, 1, 1⟩

/-- Python `_insert_player_score(scores, score)`: inserts `score` in front of the first
strictly smaller entry, else appends; keeps the list sorted descending. -/
def insert_player_score (scores : List ℚ) (score : ℚ) : List ℚ :=
  match scores with
  | [] => [score]
  | v :: rest => if score > v then score :: v :: rest else v :: insert_player_score rest score

/-- Auxiliary recursion for `_get_top_score`, on the number of pops. -/
def get_top_score_nat : List ℚ → Nat → ℚ × List ℚ
  | scores, 0 => (0, scores)
  | [], _ + 1 => (0, [])
  | s :: rest, n + 1 =>
    let r := get_top_score_nat rest n
    (s + r.1, r.2)

/-- Python `_get_top_score(scores, number)`: pops the front of `scores` up to `number`
times, summing the popped values; an `IndexError` on an empty list is caught,
so a short list just contributes what it has.  `range(number)` is empty for a
non-positive `number`, which `Int.toNat` reproduces. -/
def get_top_score (scores : List ℚ) (number : Int) : ℚ × List ℚ :=
  get_top_score_nat scores number.toNat

/-- Python `max` over a list: `ValueError` (modelled as `none`) on an empty
list, otherwise the greatest element. -/
def py_max : List ℚ → Option ℚ
  | [] => none
  | x :: xs => some (xs.foldl max x)

/-- The six per-position score lists built by the bucketing loop of
`_get_perfect_score`. -/
structure Buckets where
  QBs : List ℚ
  RBs : List ℚ
  WRs : List ℚ
  TEs : List ℚ
  DSTs : List ℚ
  Ks : List ℚ

/-- One iteration of the bucketing loop: the `if/elif` chain on
`player.position`.  A tag matching none of the six known strings falls
through and the player is dropped. -/
def bucket_player (b : Buckets) (p : PlayerWeek) : Buckets :=
  if p.position = "QB" then { b with QBs := insert_player_score b.QBs p.points }
  else if p.position = "RB" then { b with RBs := insert_player_score b.RBs p.points }
  else if p.position = "WR" then { b with WRs := insert_player_score b.WRs p.points }
  else if p.position = "TE" then { b with TEs := insert_player_score b.TEs p.points }
  else if p.position = "D/ST" then { b with DSTs := insert_player_score b.DSTs p.points }
  else if p.position = "K" then { b with Ks := insert_player_score b.Ks p.points }
  else b

/-- Python `_get_perfect_score(lineup)`: bucket the lineup by position, pop-and-sum
the configured number of entries from each fixed-position bucket, and add the
Python `max` of the concatenated WR/RB/TE leftovers (`F_score`).  Note the
source uses `max`, not `num_flex`, for the flex contribution, and `max` of an
empty pool raises (`none`). -/
def get_perfect_score (cfg : RosterSlotConfig) (lineup : List PlayerWeek) : Option ℚ :=
  let b := lineup.foldl bucket_player ⟨[], [], [], [], [], []⟩
  let qbR := get_top_score b.QBs cfg.qb
  let rbR := get_top_score b.RBs cfg.rb
  let wrR := get_top_score b.WRs cfg.wr
  let teR := get_top_score b.TEs cfg.te
  let dstR := get_top_score b.DSTs cfg.dst
  let kR := get_top_score b.Ks cfg.k
  match py_max (wrR.2 ++ rbR.2 ++ teR.2) with
  | none => none
  | some f => some (qbR.1 + rbR.1 + wrR.1 + teR.1 + dstR.1 + kR.1 + f)

/-- The descending-order relation used to state sortedness of score lists. -/
def descRel (a b : ℚ) : Prop := b ≤ a

instance : DecidableRel descRel := fun a b => inferInstanceAs (Decidable (b ≤ a))

instance : IsTotal ℚ descRel := ⟨fun a b => le_total b a⟩

instance : IsTrans ℚ descRel := ⟨fun _ _ _ h h' => le_trans h' h⟩

instance : IsAntisymm ℚ descRel := ⟨fun _ _ h h' => le_antisymm h' h⟩

/-- Sort a list of point values in descending order (spec §4.2 step 1). -/
def sortDesc (l : List ℚ) : List ℚ := List.insertionSort descRel l

/-- The point values of the lineup entries carrying a given position tag. -/
def posPoints (lineup : List PlayerWeek) (pos : String) : List ℚ :=
  (lineup.filter (fun p => p.position == pos)).map (fun p => p.points)

/-- Spec §4.2 step 2: the sum of the top `n` values of a list. -/
def topSum (n : Nat) (l : List ℚ) : ℚ := ((sortDesc l).take n).sum

/-- The pooled RB/WR/TE remainder after the fixed removals, in the
concatenation order used by the source (`WRs + RBs + TEs`). -/
def flexPool (cfg : RosterSlotConfig) (lineup : List PlayerWeek) : List ℚ :=
  (sortDesc (posPoints lineup "WR")).drop cfg.wr.toNat ++
    (sortDesc (posPoints lineup "RB")).drop cfg.rb.toNat ++
    (sortDesc (posPoints lineup "TE")).drop cfg.te.toNat

/-- The fixed-position part of the optimal score as the spec words it: for each
fixed position, the sum of the top `n_p` values of that position's bucket. -/
def specFixed (cfg : RosterSlotConfig) (lineup : List PlayerWeek) : ℚ :=
  topSum cfg.qb.toNat (posPoints lineup "QB") + topSum cfg.rb.toNat (posPoints lineup "RB") +
    topSum cfg.wr.toNat (posPoints lineup "WR") + topSum cfg.te.toNat (posPoints lineup "TE") +
    topSum cfg.dst.toNat (posPoints lineup "D/ST") + topSum cfg.k.toNat (posPoints lineup "K")

/-- Modelled from the spec's words (§4.2): fixed-position sums plus the top
`config.flex` values of the pooled remainder.  This is the claimed behaviour,
to be compared with `get_perfect_score`. -/
def specOptimal (cfg : RosterSlotConfig) (lineup : List PlayerWeek) : ℚ :=
  specFixed cfg lineup + topSum cfg.flex.toNat (flexPool cfg lineup)

/-- The seven slot dimensions of a `RosterSlotConfig`. -/
inductive Slot
  | qb
  | rb
  | wr
  | te
  | flex
  | dst
  | k
deriving DecidableEq

/-- Increase a single slot count of a configuration by one. -/
def bump : Slot → RosterSlotConfig → RosterSlotConfig
  | .qb, c => { c with qb := c.qb + 1 }
  | .rb, c => { c with rb := c.rb + 1 }
  | .wr, c => { c with wr := c.wr + 1 }
  | .te, c => { c with te := c.te + 1 }
  | .flex, c => { c with flex := c.flex + 1 }
  | .dst, c => { c with dst := c.dst + 1 }
  | .k, c => { c with k := c.k + 1 }

/-- The six position tags recognised by the bucketing loop. -/
def knownPositions : List String := ["QB", "RB", "WR", "TE", "D/ST", "K"]

/-- The worked example of spec §8, used by several counterexamples below. -/
def spec_example_lineup : List PlayerWeek :=
  [⟨"QB", 25⟩, ⟨"RB", 20⟩, ⟨"RB", 15⟩, ⟨"RB", 10⟩, ⟨"WR", 18⟩, ⟨"WR", 12⟩, ⟨"WR", 9⟩,
    ⟨"WR", 5⟩, ⟨"TE", 8⟩, ⟨"TE", 3⟩, ⟨"D/ST", 7⟩, ⟨"K", 6⟩]

example : get_perfect_score default_config spec_example_lineup = some 130 := by
  norm_num [spec_example_lineup, get_perfect_score, bucket_player, insert_player_score,
    get_top_score, get_top_score_nat, py_max, default_config]

example : specOptimal default_config spec_example_lineup = 130 := by
  norm_num [spec_example_lineup, specOptimal, specFixed, flexPool, topSum, sortDesc,
    posPoints, List.insertionSort, List.orderedInsert, descRel, default_config,
    Int.toNat_ofNat, List.take, List.sum_cons, List.sum_nil]

example : get_perfect_score default_config [⟨"QB", 5⟩] = none := by
  norm_num [get_perfect_score, bucket_player, insert_player_score, get_top_score,
    get_top_score_nat, py_max, default_config]

lemma insert_player_score_perm (scores : List ℚ) (score : ℚ) :
    (insert_player_score scores score).Perm (score :: scores) := by
  induction scores with
  | nil => exact List.Perm.refl _
  | cons v rest ih =>
    by_cases h : score > v
    · simp only [insert_player_score, if_pos h]
      exact List.Perm.refl _
    · simp only [insert_player_score, if_neg h]
      exact (ih.cons v).trans (List.Perm.swap score v rest)

lemma insert_player_score_sorted {scores : List ℚ} (h : scores.Sorted descRel) (score : ℚ) :
    (insert_player_score scores score).Sorted descRel := by
  induction scores with
  | nil => exact List.sorted_singleton score
  | cons v rest ih =>
    rw [List.sorted_cons] at h
    by_cases hgt : score > v
    · rw [insert_player_score, if_pos hgt, List.sorted_cons]
      refine ⟨?_, List.sorted_cons.mpr h⟩
      intro b hb
      rcases List.mem_cons.mp hb with rfl | hb'
      · exact le_of_lt hgt
      · exact le_trans (h.1 b hb') (le_of_lt hgt)
    · rw [insert_player_score, if_neg hgt, List.sorted_cons]
      refine ⟨?_, ih h.2⟩
      intro b hb
      rcases List.mem_cons.mp ((insert_player_score_perm rest score).mem_iff.mp hb) with rfl | hb'
      · exact not_lt.mp hgt
      · exact h.1 b hb'

lemma foldl_insert_perm (pts : List ℚ) : ∀ acc : List ℚ,
    (pts.foldl insert_player_score acc).Perm (acc ++ pts) := by
  induction pts with
  | nil => intro acc; simp
  | cons x xs ih =>
    intro acc
    have h1 : (xs.foldl insert_player_score (insert_player_score acc x)).Perm
        (insert_player_score acc x ++ xs) := ih _
    have h2 : (insert_player_score acc x ++ xs).Perm ((x :: acc) ++ xs) :=
      (insert_player_score_perm acc x).append_right xs
    exact (h1.trans h2).trans List.perm_middle.symm

lemma foldl_insert_sorted (pts : List ℚ) : ∀ acc : List ℚ, acc.Sorted descRel →
    (pts.foldl insert_player_score acc).Sorted descRel := by
  induction pts with
  | nil => intro acc h; exact h
  | cons x xs ih => intro acc h; exact ih _ (insert_player_score_sorted h x)

lemma foldl_insert_eq_sortDesc (pts : List ℚ) :
    pts.foldl insert_player_score [] = sortDesc pts :=
  List.eq_of_perm_of_sorted
    ((foldl_insert_perm pts []).trans (List.perm_insertionSort descRel pts).symm)
    (foldl_insert_sorted pts [] (by simp))
    (List.sorted_insertionSort descRel pts)

lemma bucket_player_QBs (b : Buckets) (p : PlayerWeek) :
    (bucket_player b p).QBs =
      if p.position = "QB" then insert_player_score b.QBs p.points else b.QBs := by
  unfold bucket_player
  split_ifs <;> rfl

lemma bucket_player_RBs (b : Buckets) (p : PlayerWeek) :
    (bucket_player b p).RBs =
      if p.position = "RB" then insert_player_score b.RBs p.points else b.RBs := by
  unfold bucket_player
  split_ifs <;> first | rfl | simp_all

lemma bucket_player_WRs (b : Buckets) (p : PlayerWeek) :
    (bucket_player b p).WRs =
      if p.position = "WR" then insert_player_score b.WRs p.points else b.WRs := by
  unfold bucket_player
  split_ifs <;> first | rfl | simp_all

lemma bucket_player_TEs (b : Buckets) (p : PlayerWeek) :
    (bucket_player b p).TEs =
      if p.position = "TE" then insert_player_score b.TEs p.points else b.TEs := by
  unfold bucket_player
  split_ifs <;> first | rfl | simp_all

lemma bucket_player_DSTs (b : Buckets) (p : PlayerWeek) :
    (bucket_player b p).DSTs =
      if p.position = "D/ST" then insert_player_score b.DSTs p.points else b.DSTs := by
  unfold bucket_player
  split_ifs <;> first | rfl | simp_all

lemma bucket_player_Ks (b : Buckets) (p : PlayerWeek) :
    (bucket_player b p).Ks =
      if p.position = "K" then insert_player_score b.Ks p.points else b.Ks := by
  unfold bucket_player
  split_ifs <;> first | rfl | simp_all

lemma posPoints_cons (p : PlayerWeek) (rest : List PlayerWeek) (pos : String) :
    posPoints (p :: rest) pos =
      if p.position = pos then p.points :: posPoints rest pos else posPoints rest pos := by
  by_cases h : p.position = pos <;> simp [posPoints, h]

lemma foldl_bucket_QBs (lineup : List PlayerWeek) : ∀ b : Buckets,
    (lineup.foldl bucket_player b).QBs =
      (posPoints lineup "QB").foldl insert_player_score b.QBs := by
  induction lineup with
  | nil => intro b; rfl
  | cons p rest ih =>
    intro b
    by_cases h : p.position = "QB" <;>
      simp [List.foldl_cons, ih, bucket_player_QBs, posPoints_cons, h]

lemma foldl_bucket_RBs (lineup : List PlayerWeek) : ∀ b : Buckets,
    (lineup.foldl bucket_player b).RBs =
      (posPoints lineup "RB").foldl insert_player_score b.RBs := by
  induction lineup with
  | nil => intro b; rfl
  | cons p rest ih =>
    intro b
    by_cases h : p.position = "RB" <;>
      simp [List.foldl_cons, ih, bucket_player_RBs, posPoints_cons, h]

lemma foldl_bucket_WRs (lineup : List PlayerWeek) : ∀ b : Buckets,
    (lineup.foldl bucket_player b).WRs =
      (posPoints lineup "WR").foldl insert_player_score b.WRs := by
  induction lineup with
  | nil => intro b; rfl
  | cons p rest ih =>
    intro b
    by_cases h : p.position = "WR" <;>
      simp [List.foldl_cons, ih, bucket_player_WRs, posPoints_cons, h]

lemma foldl_bucket_TEs (lineup : List PlayerWeek) : ∀ b : Buckets,
    (lineup.foldl bucket_player b).TEs =
      (posPoints lineup "TE").foldl insert_player_score b.TEs := by
  induction lineup with
  | nil => intro b; rfl
  | cons p rest ih =>
    intro b
    by_cases h : p.position = "TE" <;>
      simp [List.foldl_cons, ih, bucket_player_TEs, posPoints_cons, h]

lemma foldl_bucket_DSTs (lineup : List PlayerWeek) : ∀ b : Buckets,
    (lineup.foldl bucket_player b).DSTs =
      (posPoints lineup "D/ST").foldl insert_player_score b.DSTs := by
  induction lineup with
  | nil => intro b; rfl
  | cons p rest ih =>
    intro b
    by_cases h : p.position = "D/ST" <;>
      simp [List.foldl_cons, ih, bucket_player_DSTs, posPoints_cons, h]

lemma foldl_bucket_Ks (lineup : List PlayerWeek) : ∀ b : Buckets,
    (lineup.foldl bucket_player b).Ks =
      (posPoints lineup "K").foldl insert_player_score b.Ks := by
  induction lineup with
  | nil => intro b; rfl
  | cons p rest ih =>
    intro b
    by_cases h : p.position = "K" <;>
      simp [List.foldl_cons, ih, bucket_player_Ks, posPoints_cons, h]

lemma get_top_score_nat_eq (n : Nat) : ∀ l : List ℚ,
    get_top_score_nat l n = ((l.take n).sum, l.drop n) := by
  induction n with
  | zero => intro l; simp [get_top_score_nat]
  | succ m ih =>
    intro l
    cases l with
    | nil => simp [get_top_score_nat]
    | cons x xs => simp [get_top_score_nat, ih]

lemma foldl_max_mem (xs : List ℚ) : ∀ x : ℚ, xs.foldl max x ∈ x :: xs := by
  induction xs with
  | nil => intro x; simp
  | cons y ys ih =>
    intro x
    rcases List.mem_cons.mp (ih (max x y)) with h | h
    · rcases max_choice x y with h' | h' <;> rw [List.foldl_cons, h, h'] <;> simp
    · simp [List.foldl_cons, List.mem_cons.mpr (Or.inr (List.mem_cons.mpr (Or.inr h)))]

lemma le_foldl_max (xs : List ℚ) : ∀ x a : ℚ, a ∈ x :: xs → a ≤ xs.foldl max x := by
  induction xs with
  | nil => intro x a ha; rw [List.mem_singleton] at ha; simp [ha]
  | cons y ys ih =>
    intro x a ha
    have hself : max x y ≤ ys.foldl max (max x y) :=
      ih (max x y) (max x y) (List.mem_cons_self _ _)
    rcases List.mem_cons.mp ha with rfl | ha'
    · exact le_trans (le_max_left a y) hself
    · rcases List.mem_cons.mp ha' with rfl | ha''
      · exact le_trans (le_max_right x a) hself
      · exact ih (max x y) a (List.mem_cons_of_mem _ ha'')

lemma py_max_spec {l : List ℚ} {m : ℚ} (h : py_max l = some m) :
    m ∈ l ∧ ∀ a ∈ l, a ≤ m := by
  cases l with
  | nil => simp [py_max] at h
  | cons x xs =>
    rw [py_max, Option.some.injEq] at h
    subst h
    exact ⟨foldl_max_mem xs x, fun a ha => le_foldl_max xs x a ha⟩

lemma py_max_eq_none_iff {l : List ℚ} : py_max l = none ↔ l = [] := by
  cases l <;> simp [py_max]

lemma sortDesc_perm (l : List ℚ) : (sortDesc l).Perm l := List.perm_insertionSort descRel l

lemma sortDesc_sorted (l : List ℚ) : (sortDesc l).Sorted descRel :=
  List.sorted_insertionSort descRel l

lemma sortDesc_nonempty {l : List ℚ} (h : l ≠ []) : sortDesc l ≠ [] := by
  intro hc
  apply h
  apply List.eq_nil_of_length_eq_zero
  rw [← (sortDesc_perm l).length_eq]
  exact congrArg List.length hc

lemma topSum_one_eq_py_max {l : List ℚ} (h : l ≠ []) : py_max l = some (topSum 1 l) := by
  obtain ⟨a, t, ht⟩ : ∃ a t, sortDesc l = a :: t := by
    cases hs : sortDesc l with
    | nil => exact absurd hs (sortDesc_nonempty h)
    | cons a t => exact ⟨a, t, rfl⟩
  have h1 : topSum 1 l = a := by simp [topSum, ht]
  cases hm : py_max l with
  | none => exact absurd (py_max_eq_none_iff.mp hm) h
  | some m =>
    obtain ⟨hmem, hub⟩ := py_max_spec hm
    have hperm : (sortDesc l).Perm l := sortDesc_perm l
    have ha_in : a ∈ sortDesc l := by rw [ht]; exact List.mem_cons_self a t
    have ha_mem : a ∈ l := hperm.mem_iff.mp ha_in
    have hsorted : (sortDesc l).Sorted descRel := sortDesc_sorted l
    rw [ht] at hsorted
    have hma : m ≤ a := by
      have hm_in : m ∈ sortDesc l := hperm.mem_iff.mpr hmem
      rw [ht] at hm_in
      rcases List.mem_cons.mp hm_in with rfl | hm_in'
      · exact le_refl m
      · exact (List.sorted_cons.mp hsorted).1 m hm_in'
    rw [h1]
    exact congrArg some (le_antisymm hma (hub a ha_mem))

lemma get_perfect_score_eq_form (cfg : RosterSlotConfig) (lineup : List PlayerWeek) :
    get_perfect_score cfg lineup =
      (py_max (flexPool cfg lineup)).map (fun m => specFixed cfg lineup + m) := by
  have hQ : (lineup.foldl bucket_player ⟨[], [], [], [], [], []⟩).QBs
      = sortDesc (posPoints lineup "QB") := by
    rw [foldl_bucket_QBs]; exact foldl_insert_eq_sortDesc _
  have hR : (lineup.foldl bucket_player ⟨[], [], [], [], [], []⟩).RBs
      = sortDesc (posPoints lineup "RB") := by
    rw [foldl_bucket_RBs]; exact foldl_insert_eq_sortDesc _
  have hW : (lineup.foldl bucket_player ⟨[], [], [], [], [], []⟩).WRs
      = sortDesc (posPoints lineup "WR") := by
    rw [foldl_bucket_WRs]; exact foldl_insert_eq_sortDesc _
  have hT : (lineup.foldl bucket_player ⟨[], [], [], [], [], []⟩).TEs
      = sortDesc (posPoints lineup "TE") := by
    rw [foldl_bucket_TEs]; exact foldl_insert_eq_sortDesc _
  have hD : (lineup.foldl bucket_player ⟨[], [], [], [], [], []⟩).DSTs
      = sortDesc (posPoints lineup "D/ST") := by
    rw [foldl_bucket_DSTs]; exact foldl_insert_eq_sortDesc _
  have hK : (lineup.foldl bucket_player ⟨[], [], [], [], [], []⟩).Ks
      = sortDesc (posPoints lineup "K") := by
    rw [foldl_bucket_Ks]; exact foldl_insert_eq_sortDesc _
  unfold get_perfect_score
  simp only [hQ, hR, hW, hT, hD, hK, get_top_score, get_top_score_nat_eq]
  cases hp : py_max (flexPool cfg lineup) with
  | none =>
    rw [show flexPool cfg lineup
        = (sortDesc (posPoints lineup "WR")).drop cfg.wr.toNat ++
            (sortDesc (posPoints lineup "RB")).drop cfg.rb.toNat ++
            (sortDesc (posPoints lineup "TE")).drop cfg.te.toNat from rfl] at hp
    rw [hp]
    rfl
  | some m =>
    rw [show flexPool cfg lineup
        = (sortDesc (posPoints lineup "WR")).drop cfg.wr.toNat ++
            (sortDesc (posPoints lineup "RB")).drop cfg.rb.toNat ++
            (sortDesc (posPoints lineup "TE")).drop cfg.te.toNat from rfl] at hp
    rw [hp, Option.map_some']
    rfl

lemma posPoints_nonneg {lineup : List PlayerWeek} (hnn : ∀ p ∈ lineup, 0 ≤ p.points)
    (pos : String) : ∀ x ∈ posPoints lineup pos, 0 ≤ x := by
  intro x hx
  obtain ⟨p, hp, rfl⟩ := List.mem_map.mp hx
  exact hnn p (List.mem_filter.mp hp).1

lemma sortDesc_posPoints_nonneg {lineup : List PlayerWeek}
    (hnn : ∀ p ∈ lineup, 0 ≤ p.points) (pos : String) :
    ∀ x ∈ sortDesc (posPoints lineup pos), 0 ≤ x := by
  intro x hx
  exact posPoints_nonneg hnn pos x ((sortDesc_perm _).mem_iff.mp hx)

lemma int_toNat_succ (n : Int) : (n + 1).toNat = n.toNat ∨ (n + 1).toNat = n.toNat + 1 := by
  omega

lemma sum_take_le_sum_take_succ {l : List ℚ} (hl : ∀ x ∈ l, 0 ≤ x) (n : Nat) :
    (l.take n).sum ≤ (l.take (n + 1)).sum := by
  induction l generalizing n with
  | nil => simp
  | cons x xs ih =>
    cases n with
    | zero => simpa using hl x (List.mem_cons_self x xs)
    | succ m =>
      simp only [List.take_succ_cons, List.sum_cons]
      exact add_le_add_left (ih (fun y hy => hl y (List.mem_cons_of_mem _ hy)) m) x

lemma sum_take_succ_of_drop {l : List ℚ} {n : Nat} {r : ℚ} {d : List ℚ}
    (h : l.drop n = r :: d) :
    (l.take (n + 1)).sum = (l.take n).sum + r ∧ l.drop (n + 1) = d := by
  induction l generalizing n with
  | nil => simp at h
  | cons x xs ih =>
    cases n with
    | zero =>
      rw [List.drop_zero] at h
      injection h with h1 h2
      subst h1
      subst h2
      constructor
      · simp
      · rfl
    | succ m =>
      have h' : xs.drop m = r :: d := h
      obtain ⟨h1, h2⟩ := ih h'
      constructor
      · simp only [List.take_succ_cons, List.sum_cons, h1]
        ring
      · exact h2

lemma take_drop_of_drop_nil {l : List ℚ} {n : Nat} (h : l.drop n = []) :
    l.take (n + 1) = l.take n ∧ l.drop (n + 1) = [] := by
  have hlen : l.length ≤ n := List.drop_eq_nil_iff.mp h
  refine ⟨?_, List.drop_eq_nil_iff.mpr (Nat.le_succ_of_le hlen)⟩
  rw [List.take_of_length_le hlen, List.take_of_length_le (Nat.le_succ_of_le hlen)]

lemma max_pool_exchange {r mOld mNew : ℚ} {poolOld poolNew : List ℚ}
    (hr : 0 ≤ r) (hnn : ∀ x ∈ poolNew, 0 ≤ x)
    (hOld : py_max poolOld = some mOld) (hNew : py_max poolNew = some mNew)
    (hsub : ∀ x ∈ poolOld, x = r ∨ x ∈ poolNew) :
    mOld ≤ r + mNew := by
  obtain ⟨hmemO, _⟩ := py_max_spec hOld
  obtain ⟨hmemN, hubN⟩ := py_max_spec hNew
  have hmN : 0 ≤ mNew := hnn _ hmemN
  rcases hsub _ hmemO with rfl | hmem
  · linarith
  · have := hubN _ hmem
    linarith

/-- C1: counterexample.  On the worked example of spec §8 with `flex = 2`, the
engine still adds only the single pool maximum (total 130), not the top two
pooled values (total 135), so the claimed equality with the spec formula fails
for `flex > 1`. -/
theorem C1_counterexample :
    get_perfect_score { default_config with flex := 2 } spec_example_lineup ≠
      some (specOptimal { default_config with flex := 2 } spec_example_lineup) := by
  norm_num [spec_example_lineup, get_perfect_score, bucket_player, insert_player_score,
    get_top_score, get_top_score_nat, py_max, default_config, specOptimal, specFixed,
    flexPool, topSum, sortDesc, posPoints, List.insertionSort, List.orderedInsert,
    descRel, Int.toNat_ofNat, List.take, List.sum_cons, List.sum_nil]

/-- C1 (amended): whenever the pooled RB/WR/TE remainder is nonempty,
`compute_optimal_score` equals the sum over each fixed position of the top
`n_p` values of its bucket plus the top **one** pooled remainder value (the
pool maximum), irrespective of `config.flex`. -/
theorem C1_perfect_score_single_flex (cfg : RosterSlotConfig) (lineup : List PlayerWeek)
    (h : flexPool cfg lineup ≠ []) :
    get_perfect_score cfg lineup =
      some (specFixed cfg lineup + topSum 1 (flexPool cfg lineup)) := by
  rw [get_perfect_score_eq_form, topSum_one_eq_py_max h, Option.map_some']

/-- C1: witness for the amended theorem at the spec §8 example with the
default configuration. -/
theorem C1_witness :
    get_perfect_score default_config spec_example_lineup =
      some (specFixed default_config spec_example_lineup +
        topSum 1 (flexPool default_config spec_example_lineup)) :=
  C1_perfect_score_single_flex default_config spec_example_lineup (by
    norm_num [spec_example_lineup, flexPool, sortDesc, posPoints, List.insertionSort,
      List.orderedInsert, descRel, default_config, Int.toNat_ofNat])

/-- C2: counterexample.  A lineup with no flex-eligible player at all (here a
lone quarterback) makes the flex pool empty, and the engine's `max([])` raises
a `ValueError` (modelled as `none`): `compute_optimal_score` does not always
degrade to a partial sum. -/
theorem C2_counterexample : get_perfect_score default_config [⟨"QB", 5⟩] = none := by
  norm_num [get_perfect_score, bucket_player, insert_player_score, get_top_score,
    get_top_score_nat, py_max, default_config]

/-- C2 (amended): `compute_optimal_score` returns a value exactly when the
pooled RB/WR/TE remainder after the fixed removals is nonempty; short fixed
buckets merely lower the sum, but an empty flex pool raises. -/
theorem C2_defined_iff_flex_pool_nonempty (cfg : RosterSlotConfig) (lineup : List PlayerWeek) :
    (get_perfect_score cfg lineup).isSome = true ↔ flexPool cfg lineup ≠ [] := by
  rw [get_perfect_score_eq_form]
  cases hp : flexPool cfg lineup with
  | nil => simp [py_max]
  | cons x xs => simp [py_max]

lemma mono_flex_case {L poolOld poolNew : List ℚ} {n : Nat} {r mOld mNew : ℚ} {d : List ℚ}
    (hLnn : ∀ x ∈ L, 0 ≤ x) (hPNnn : ∀ x ∈ poolNew, 0 ≤ x)
    (hd : L.drop n = r :: d)
    (hsub : ∀ x ∈ poolOld, x = r ∨ x ∈ poolNew)
    (hOld : py_max poolOld = some mOld) (hNew : py_max poolNew = some mNew) :
    (L.take n).sum + mOld ≤ (L.take (n + 1)).sum + mNew := by
  have hrd : r ∈ L.drop n := by rw [hd]; exact List.mem_cons_self r d
  have hr : 0 ≤ r := hLnn r (List.mem_of_mem_drop hrd)
  have hx := max_pool_exchange hr hPNnn hOld hNew hsub
  have hsum := (sum_take_succ_of_drop hd).1
  linarith

lemma form_elim {cfg : RosterSlotConfig} {lineup : List PlayerWeek} {v : ℚ}
    (h : get_perfect_score cfg lineup = some v) :
    ∃ m, py_max (flexPool cfg lineup) = some m ∧ v = specFixed cfg lineup + m := by
  rw [get_perfect_score_eq_form] at h
  cases hp : py_max (flexPool cfg lineup) with
  | none => rw [hp] at h; simp at h
  | some m =>
    rw [hp, Option.map_some'] at h
    exact ⟨m, rfl, (Option.some.inj h).symm⟩

/-- C4 (amended): provided every player's point total is non-negative and the
engine returns a value before and after the change, increasing any single slot
count of the configuration never decreases `compute_optimal_score`.  (With a
negative point value, or when the bump empties the flex pool, the original
claim fails; see the counterexample.) -/
theorem C4_perfect_score_config_monotone (s : Slot) (cfg : RosterSlotConfig)
    (lineup : List PlayerWeek) (hnn : ∀ p ∈ lineup, 0 ≤ p.points) {v v' : ℚ}
    (h : get_perfect_score cfg lineup = some v)
    (h' : get_perfect_score (bump s cfg) lineup = some v') : v ≤ v' := by
  obtain ⟨m, hm, rfl⟩ := form_elim h
  obtain ⟨m', hm', rfl⟩ := form_elim h'
  cases s with
  | flex =>
    have hpe : flexPool (bump Slot.flex cfg) lineup = flexPool cfg lineup := rfl
    have hse : specFixed (bump Slot.flex cfg) lineup = specFixed cfg lineup := rfl
    rw [hse]
    rw [hpe, hm] at hm'
    rw [(Option.some.inj hm').symm]
  | qb =>
    have hpe : flexPool (bump Slot.qb cfg) lineup = flexPool cfg lineup := rfl
    rw [hpe, hm] at hm'
    rw [(Option.some.inj hm').symm]
    apply add_le_add_right
    have hq : ((sortDesc (posPoints lineup "QB")).take cfg.qb.toNat).sum ≤
        ((sortDesc (posPoints lineup "QB")).take (cfg.qb + 1).toNat).sum := by
      rcases int_toNat_succ cfg.qb with ht | ht <;> rw [ht]
      exact sum_take_le_sum_take_succ (sortDesc_posPoints_nonneg hnn _) _
    simp only [specFixed, topSum, bump]
    linarith [hq]
  | dst =>
    have hpe : flexPool (bump Slot.dst cfg) lineup = flexPool cfg lineup := rfl
    rw [hpe, hm] at hm'
    rw [(Option.some.inj hm').symm]
    apply add_le_add_right
    have hq : ((sortDesc (posPoints lineup "D/ST")).take cfg.dst.toNat).sum ≤
        ((sortDesc (posPoints lineup "D/ST")).take (cfg.dst + 1).toNat).sum := by
      rcases int_toNat_succ cfg.dst with ht | ht <;> rw [ht]
      exact sum_take_le_sum_take_succ (sortDesc_posPoints_nonneg hnn _) _
    simp only [specFixed, topSum, bump]
    linarith [hq]
  | k =>
    have hpe : flexPool (bump Slot.k cfg) lineup = flexPool cfg lineup := rfl
    rw [hpe, hm] at hm'
    rw [(Option.some.inj hm').symm]
    apply add_le_add_right
    have hq : ((sortDesc (posPoints lineup "K")).take cfg.k.toNat).sum ≤
        ((sortDesc (posPoints lineup "K")).take (cfg.k + 1).toNat).sum := by
      rcases int_toNat_succ cfg.k with ht | ht <;> rw [ht]
      exact sum_take_le_sum_take_succ (sortDesc_posPoints_nonneg hnn _) _
    simp only [specFixed, topSum, bump]
    linarith [hq]
  | rb =>
    have hpoolO : flexPool cfg lineup
        = (sortDesc (posPoints lineup "WR")).drop cfg.wr.toNat ++
            (sortDesc (posPoints lineup "RB")).drop cfg.rb.toNat ++
            (sortDesc (posPoints lineup "TE")).drop cfg.te.toNat := rfl
    have hpoolN : flexPool (bump Slot.rb cfg) lineup
        = (sortDesc (posPoints lineup "WR")).drop cfg.wr.toNat ++
            (sortDesc (posPoints lineup "RB")).drop (cfg.rb + 1).toNat ++
            (sortDesc (posPoints lineup "TE")).drop cfg.te.toNat := rfl
    rcases int_toNat_succ cfg.rb with ht | ht
    · have hpe : flexPool (bump Slot.rb cfg) lineup = flexPool cfg lineup := by
        rw [hpoolN, hpoolO, ht]
      have hse : specFixed (bump Slot.rb cfg) lineup = specFixed cfg lineup := by
        simp only [specFixed, topSum, bump]
        rw [ht]
      rw [hse]
      rw [hpe, hm] at hm'
      rw [(Option.some.inj hm').symm]
    · cases hd : (sortDesc (posPoints lineup "RB")).drop cfg.rb.toNat with
      | nil =>
        obtain ⟨htk, hdr⟩ := take_drop_of_drop_nil hd
        have hpe : flexPool (bump Slot.rb cfg) lineup = flexPool cfg lineup := by
          rw [hpoolN, hpoolO, ht, hdr, hd]
        have hse : specFixed (bump Slot.rb cfg) lineup = specFixed cfg lineup := by
          simp only [specFixed, topSum, bump]
          rw [ht, htk]
        rw [hse]
        rw [hpe, hm] at hm'
        rw [(Option.some.inj hm').symm]
      | cons r d =>
        obtain ⟨hsum, hdr⟩ := sum_take_succ_of_drop hd
        have hRnn := sortDesc_posPoints_nonneg hnn "RB"
        have hWnn := sortDesc_posPoints_nonneg hnn "WR"
        have hTnn := sortDesc_posPoints_nonneg hnn "TE"
        rw [hpoolO, hd] at hm
        rw [hpoolN, ht, hdr] at hm'
        have hPNnn : ∀ x ∈ (sortDesc (posPoints lineup "WR")).drop cfg.wr.toNat ++ d ++
            (sortDesc (posPoints lineup "TE")).drop cfg.te.toNat, 0 ≤ x := by
          intro x hx
          simp only [List.mem_append] at hx
          rcases hx with (hx | hx) | hx
          · exact hWnn x (List.mem_of_mem_drop hx)
          · refine hRnn x (List.mem_of_mem_drop (n := cfg.rb.toNat + 1) ?_)
            rw [hdr]
            exact hx
          · exact hTnn x (List.mem_of_mem_drop hx)
        have hsub : ∀ x ∈ (sortDesc (posPoints lineup "WR")).drop cfg.wr.toNat ++ (r :: d) ++
            (sortDesc (posPoints lineup "TE")).drop cfg.te.toNat,
            x = r ∨ x ∈ (sortDesc (posPoints lineup "WR")).drop cfg.wr.toNat ++ d ++
              (sortDesc (posPoints lineup "TE")).drop cfg.te.toNat := by
          intro x hx
          simp only [List.mem_append, List.mem_cons] at hx ⊢
          tauto
        have key := mono_flex_case hRnn hPNnn hd hsub hm hm'
        simp only [specFixed, topSum, bump]
        rw [ht]
        linarith [key]
  | wr =>
    have hpoolO : flexPool cfg lineup
        = (sortDesc (posPoints lineup "WR")).drop cfg.wr.toNat ++
            (sortDesc (posPoints lineup "RB")).drop cfg.rb.toNat ++
            (sortDesc (posPoints lineup "TE")).drop cfg.te.toNat := rfl
    have hpoolN : flexPool (bump Slot.wr cfg) lineup
        = (sortDesc (posPoints lineup "WR")).drop (cfg.wr + 1).toNat ++
            (sortDesc (posPoints lineup "RB")).drop cfg.rb.toNat ++
            (sortDesc (posPoints lineup "TE")).drop cfg.te.toNat := rfl
    rcases int_toNat_succ cfg.wr with ht | ht
    · have hpe : flexPool (bump Slot.wr cfg) lineup = flexPool cfg lineup := by
        rw [hpoolN, hpoolO, ht]
      have hse : specFixed (bump Slot.wr cfg) lineup = specFixed cfg lineup := by
        simp only [specFixed, topSum, bump]
        rw [ht]
      rw [hse]
      rw [hpe, hm] at hm'
      rw [(Option.some.inj hm').symm]
    · cases hd : (sortDesc (posPoints lineup "WR")).drop cfg.wr.toNat with
      | nil =>
        obtain ⟨htk, hdr⟩ := take_drop_of_drop_nil hd
        have hpe : flexPool (bump Slot.wr cfg) lineup = flexPool cfg lineup := by
          rw [hpoolN, hpoolO, ht, hdr, hd]
        have hse : specFixed (bump Slot.wr cfg) lineup = specFixed cfg lineup := by
          simp only [specFixed, topSum, bump]
          rw [ht, htk]
        rw [hse]
        rw [hpe, hm] at hm'
        rw [(Option.some.inj hm').symm]
      | cons r d =>
        obtain ⟨hsum, hdr⟩ := sum_take_succ_of_drop hd
        have hRnn := sortDesc_posPoints_nonneg hnn "RB"
        have hWnn := sortDesc_posPoints_nonneg hnn "WR"
        have hTnn := sortDesc_posPoints_nonneg hnn "TE"
        rw [hpoolO, hd] at hm
        rw [hpoolN, ht, hdr] at hm'
        have hPNnn : ∀ x ∈ d ++ (sortDesc (posPoints lineup "RB")).drop cfg.rb.toNat ++
            (sortDesc (posPoints lineup "TE")).drop cfg.te.toNat, 0 ≤ x := by
          intro x hx
          simp only [List.mem_append] at hx
          rcases hx with (hx | hx) | hx
          · refine hWnn x (List.mem_of_mem_drop (n := cfg.wr.toNat + 1) ?_)
            rw [hdr]
            exact hx
          · exact hRnn x (List.mem_of_mem_drop hx)
          · exact hTnn x (List.mem_of_mem_drop hx)
        have hsub : ∀ x ∈ (r :: d) ++ (sortDesc (posPoints lineup "RB")).drop cfg.rb.toNat ++
            (sortDesc (posPoints lineup "TE")).drop cfg.te.toNat,
            x = r ∨ x ∈ d ++ (sortDesc (posPoints lineup "RB")).drop cfg.rb.toNat ++
              (sortDesc (posPoints lineup "TE")).drop cfg.te.toNat := by
          intro x hx
          simp only [List.mem_append, List.mem_cons] at hx ⊢
          tauto
        have key := mono_flex_case hWnn hPNnn hd hsub hm hm'
        simp only [specFixed, topSum, bump]
        rw [ht]
        linarith [key]
  | te =>
    have hpoolO : flexPool cfg lineup
        = (sortDesc (posPoints lineup "WR")).drop cfg.wr.toNat ++
            (sortDesc (posPoints lineup "RB")).drop cfg.rb.toNat ++
            (sortDesc (posPoints lineup "TE")).drop cfg.te.toNat := rfl
    have hpoolN : flexPool (bump Slot.te cfg) lineup
        = (sortDesc (posPoints lineup "WR")).drop cfg.wr.toNat ++
            (sortDesc (posPoints lineup "RB")).drop cfg.rb.toNat ++
            (sortDesc (posPoints lineup "TE")).drop (cfg.te + 1).toNat := rfl
    rcases int_toNat_succ cfg.te with ht | ht
    · have hpe : flexPool (bump Slot.te cfg) lineup = flexPool cfg lineup := by
        rw [hpoolN, hpoolO, ht]
      have hse : specFixed (bump Slot.te cfg) lineup = specFixed cfg lineup := by
        simp only [specFixed, topSum, bump]
        rw [ht]
      rw [hse]
      rw [hpe, hm] at hm'
      rw [(Option.some.inj hm').symm]
    · cases hd : (sortDesc (posPoints lineup "TE")).drop cfg.te.toNat with
      | nil =>
        obtain ⟨htk, hdr⟩ := take_drop_of_drop_nil hd
        have hpe : flexPool (bump Slot.te cfg) lineup = flexPool cfg lineup := by
          rw [hpoolN, hpoolO, ht, hdr, hd]
        have hse : specFixed (bump Slot.te cfg) lineup = specFixed cfg lineup := by
          simp only [specFixed, topSum, bump]
          rw [ht, htk]
        rw [hse]
        rw [hpe, hm] at hm'
        rw [(Option.some.inj hm').symm]
      | cons r d =>
        obtain ⟨hsum, hdr⟩ := sum_take_succ_of_drop hd
        have hRnn := sortDesc_posPoints_nonneg hnn "RB"
        have hWnn := sortDesc_posPoints_nonneg hnn "WR"
        have hTnn := sortDesc_posPoints_nonneg hnn "TE"
        rw [hpoolO, hd] at hm
        rw [hpoolN, ht, hdr] at hm'
        have hPNnn : ∀ x ∈ (sortDesc (posPoints lineup "WR")).drop cfg.wr.toNat ++
            (sortDesc (posPoints lineup "RB")).drop cfg.rb.toNat ++ d, 0 ≤ x := by
          intro x hx
          simp only [List.mem_append] at hx
          rcases hx with (hx | hx) | hx
          · exact hWnn x (List.mem_of_mem_drop hx)
          · exact hRnn x (List.mem_of_mem_drop hx)
          · refine hTnn x (List.mem_of_mem_drop (n := cfg.te.toNat + 1) ?_)
            rw [hdr]
            exact hx
        have hsub : ∀ x ∈ (sortDesc (posPoints lineup "WR")).drop cfg.wr.toNat ++
            (sortDesc (posPoints lineup "RB")).drop cfg.rb.toNat ++ (r :: d),
            x = r ∨ x ∈ (sortDesc (posPoints lineup "WR")).drop cfg.wr.toNat ++
              (sortDesc (posPoints lineup "RB")).drop cfg.rb.toNat ++ d := by
          intro x hx
          simp only [List.mem_append, List.mem_cons] at hx ⊢
          tauto
        have key := mono_flex_case hTnn hPNnn hd hsub hm hm'
        simp only [specFixed, topSum, bump]
        rw [ht]
        linarith [key]

/-- C4: counterexample.  With a negative point value (`QB` scoring −3) the
claim fails: bumping the quarterback slot count from 1 to 2 drops the output
from 7 to 4, so increasing a slot count can decrease `compute_optimal_score`. -/
theorem C4_counterexample :
    get_perfect_score ⟨1, 0, 0, 0, 1, 0, 0⟩ [⟨"QB", 5⟩, ⟨"QB", -3⟩, ⟨"RB", 2⟩] = some 7 ∧
      get_perfect_score (bump Slot.qb ⟨1, 0, 0, 0, 1, 0, 0⟩)
        [⟨"QB", 5⟩, ⟨"QB", -3⟩, ⟨"RB", 2⟩] = some 4 ∧
      ¬ ((7 : ℚ) ≤ 4) := by
  refine ⟨?_, ?_, by norm_num⟩ <;>
    norm_num [get_perfect_score, bucket_player, insert_player_score, get_top_score,
      get_top_score_nat, py_max, bump, Int.toNat_ofNat, Int.toNat_one]

/-- C4: witness for the amended monotonicity theorem on a concrete lineup. -/
theorem C4_witness :
    get_perfect_score ⟨0, 0, 0, 0, 1, 0, 0⟩ [⟨"RB", 5⟩, ⟨"RB", 3⟩] = some 5 ∧
      get_perfect_score (bump Slot.rb ⟨0, 0, 0, 0, 1, 0, 0⟩) [⟨"RB", 5⟩, ⟨"RB", 3⟩] = some 8 ∧
      (5 : ℚ) ≤ 8 := by
  have h : get_perfect_score ⟨0, 0, 0, 0, 1, 0, 0⟩ [⟨"RB", 5⟩, ⟨"RB", 3⟩] = some 5 := by
    norm_num [get_perfect_score, bucket_player, insert_player_score, get_top_score,
      get_top_score_nat, py_max, Int.toNat_ofNat, Int.toNat_one]
  have h' : get_perfect_score (bump Slot.rb ⟨0, 0, 0, 0, 1, 0, 0⟩)
      [⟨"RB", 5⟩, ⟨"RB", 3⟩] = some 8 := by
    norm_num [get_perfect_score, bucket_player, insert_player_score, get_top_score,
      get_top_score_nat, py_max, bump, Int.toNat_ofNat, Int.toNat_one]
  exact ⟨h, h',
    C4_perfect_score_config_monotone Slot.rb ⟨0, 0, 0, 0, 1, 0, 0⟩ [⟨"RB", 5⟩, ⟨"RB", 3⟩]
      (by norm_num) h h'⟩

/-- One provider box score, as consumed by `_get_games` and
`get_perfect_record`. -/
structure BoxScore where
  homeTeam : String
  awayTeam : String
  homeScore : ℚ
  awayScore : ℚ
  homeProjected : ℚ
  awayProjected : ℚ
  homeLineup : List PlayerWeek
  awayLineup : List PlayerWeek
deriving DecidableEq

/-- One row of the games table built by `_get_games`.  The `NaN` score
differential of an unplayed 0-0 game is modelled as `none`. -/
structure GameRow where
  winnerTeam : String
  winnerScore : ℚ
  winnerProj : ℚ
  loserTeam : String
  loserScore : ℚ
  loserProj : ℚ
  winnerLineup : List PlayerWeek
  loserLineup : List PlayerWeek
  scoreDiff : Option ℚ
deriving DecidableEq

/-- The per-game body of `_get_games`: the away team is the winner only when
`home_score < away_score`, so an exact tie labels the home team as winner. -/
def make_game_row (g : BoxScore) : GameRow :=
  if g.homeScore < g.awayScore then
    { winnerTeam := g.awayTeam, winnerScore := g.awayScore, winnerProj := g.awayProjected,
      loserTeam := g.homeTeam, loserScore := g.homeScore, loserProj := g.homeProjected,
      winnerLineup := g.awayLineup, loserLineup := g.homeLineup,
      scoreDiff := if g.homeScore = 0 ∧ g.awayScore = 0 then none
        else some |g.homeScore - g.awayScore| }
  else
    { winnerTeam := g.homeTeam, winnerScore := g.homeScore, winnerProj := g.homeProjected,
      loserTeam := g.awayTeam, loserScore := g.awayScore, loserProj := g.awayProjected,
      winnerLineup := g.homeLineup, loserLineup := g.awayLineup,
      scoreDiff := if g.homeScore = 0 ∧ g.awayScore = 0 then none
        else some |g.homeScore - g.awayScore| }

/-- The accumulation loop of `get_perfect_record`: per game, the home team is
appended to `winners` only when its optimal score is strictly greater, so an
exact tie of optimal scores awards the perfect win to the **away** team.  An
engine error (`none`) aborts the whole computation, as an uncaught Python
exception would. -/
def perfect_wl_aux (cfg : RosterSlotConfig) (acc : List String × List String) :
    List BoxScore → Option (List String × List String)
  | [] => some acc
  | g :: rest =>
    match get_perfect_score cfg g.homeLineup, get_perfect_score cfg g.awayLineup with
    | some hs, some aw =>
      if hs > aw then perfect_wl_aux cfg (acc.1 ++ [g.homeTeam], acc.2 ++ [g.awayTeam]) rest
      else perfect_wl_aux cfg (acc.1 ++ [g.awayTeam], acc.2 ++ [g.homeTeam]) rest
    | _, _ => none

/-- Games in which a team is listed as winner of the games table. -/
def actual_wins (name : String) (games : List BoxScore) : Nat :=
  games.countP (fun g => (make_game_row g).winnerTeam == name)

/-- Games in which a team is listed as loser of the games table. -/
def actual_losses (name : String) (games : List BoxScore) : Nat :=
  games.countP (fun g => (make_game_row g).loserTeam == name)

/-- A team's perfect-win tally: `winners.count(team_name)` over the processed
games, when the accumulation succeeds. -/
def perfect_wins (cfg : RosterSlotConfig) (name : String) (games : List BoxScore) :
    Option Nat :=
  (perfect_wl_aux cfg ([], []) games).map (fun wl => wl.1.count name)

/-- Actual team data used by the standings loop of `get_perfect_record`. -/
structure TeamInfo where
  name : String
  wins : Int
  losses : Int
deriving DecidableEq

/-- The standings rows of `get_perfect_record`: per team, its perfect wins,
perfect losses and `wins_perfect - team.wins`. -/
def perfect_record (cfg : RosterSlotConfig) (teams : List TeamInfo)
    (games : List BoxScore) : Option (List (String × Int × Int × Int)) :=
  (perfect_wl_aux cfg ([], []) games).map (fun wl =>
    teams.map (fun t => (t.name, (wl.1.count t.name : Int), (wl.2.count t.name : Int),
      (wl.1.count t.name : Int) - t.wins)))

/-- A 50-50 tied game whose two lineups also tie on optimal score. -/
def tie_game : BoxScore :=
  { homeTeam := "H", awayTeam := "A", homeScore := 50, awayScore := 50,
    homeProjected := 0, awayProjected := 0,
    homeLineup := [⟨"RB", 10⟩], awayLineup := [⟨"WR", 10⟩] }

/-- A second tied game, used as the witness input. -/
def tie_game2 : BoxScore :=
  { homeTeam := "H2", awayTeam := "A2", homeScore := 60, awayScore := 60,
    homeProjected := 0, awayProjected := 0,
    homeLineup := [⟨"TE", 7⟩], awayLineup := [⟨"RB", 7⟩] }

/-- A flex-only configuration used by several concrete checks. -/
def flex_only_config : RosterSlotConfig := ⟨0, 0, 0, 0, 1, 0, 0⟩

/-- C3: counterexample.  On a 50-50 game the games table labels the home team
"H" as winner, while with equal optimal scores the perfect-record loop awards
the perfect win to the away team "A": the two tie-break conventions are
opposite, not the same. -/
theorem C3_counterexample :
    (make_game_row tie_game).winnerTeam = "H" ∧
      perfect_wl_aux flex_only_config ([], []) [tie_game] = some (["A"], ["H"]) := by
  constructor
  · norm_num [tie_game, make_game_row]
  · norm_num [tie_game, flex_only_config, perfect_wl_aux, get_perfect_score, bucket_player,
      insert_player_score, get_top_score, get_top_score_nat, py_max, Int.toNat_ofNat]

/-- C3 (amended): on an exact tie of actual scores the games table labels the
home team as winner, while on an exact tie of optimal scores the perfect
record awards the win to the away team — two opposite conventions. -/
theorem C3_tie_conventions (g : BoxScore) (cfg : RosterSlotConfig) (q : ℚ)
    (hscore : g.homeScore = g.awayScore)
    (hh : get_perfect_score cfg g.homeLineup = some q)
    (ha : get_perfect_score cfg g.awayLineup = some q) :
    (make_game_row g).winnerTeam = g.homeTeam ∧
      perfect_wl_aux cfg ([], []) [g] = some ([g.awayTeam], [g.homeTeam]) := by
  constructor
  · simp [make_game_row, hscore]
  · simp [perfect_wl_aux, hh, ha]

/-- C3: witness for the amended theorem at a concrete tied game. -/
theorem C3_witness :
    (make_game_row tie_game2).winnerTeam = tie_game2.homeTeam ∧
      perfect_wl_aux flex_only_config ([], []) [tie_game2] =
        some ([tie_game2.awayTeam], [tie_game2.homeTeam]) :=
  C3_tie_conventions tie_game2 flex_only_config 7 (by norm_num [tie_game2])
    (by norm_num [tie_game2, flex_only_config, get_perfect_score, bucket_player,
      insert_player_score, get_top_score, get_top_score_nat, py_max, Int.toNat_ofNat])
    (by norm_num [tie_game2, flex_only_config, get_perfect_score, bucket_player,
      insert_player_score, get_top_score, get_top_score_nat, py_max, Int.toNat_ofNat])

lemma bucket_player_unknown {p : PlayerWeek} (h : p.position ∉ knownPositions)
    (b : Buckets) : bucket_player b p = b := by
  simp only [knownPositions, List.mem_cons, List.not_mem_nil, or_false, not_or] at h
  obtain ⟨h1, h2, h3, h4, h5, h6⟩ := h
  simp [bucket_player, h1, h2, h3, h4, h5, h6]

/-- C6 (amended): no validation failure is surfaced.  A roster entry whose
position tag is not one of the six known tags is silently dropped by the
bucketing loop, and a negative slot count behaves exactly like zero
(`range(number)` is empty), the aggregation proceeding normally. -/
theorem C6_silent_handling (cfg : RosterSlotConfig) (lineup : List PlayerWeek)
    (p : PlayerWeek) (h : p.position ∉ knownPositions) :
    get_perfect_score cfg (p :: lineup) = get_perfect_score cfg lineup ∧
      ∀ (scores : List ℚ) (n : Int), n ≤ 0 → get_top_score scores n = (0, scores) := by
  constructor
  · simp only [get_perfect_score, List.foldl_cons, bucket_player_unknown h]
  · intro scores n hn
    rw [get_top_score, Int.toNat_of_nonpos hn]
    simp [get_top_score_nat]

/-- C6: counterexample.  With a negative quarterback slot count and a roster
entry tagged "XX", `compute_optimal_score` raises no validation failure: it
returns `some 13`, silently ignoring the unknown-position player (50 points)
and treating the negative count as zero. -/
theorem C6_counterexample :
    get_perfect_score ⟨-1, 1, 0, 0, 1, 0, 0⟩ [⟨"XX", 50⟩, ⟨"RB", 10⟩, ⟨"RB", 3⟩] =
      some 13 := by
  norm_num [get_perfect_score, bucket_player, insert_player_score, get_top_score,
    get_top_score_nat, py_max, Int.toNat_ofNat, Int.toNat_one,
    show ((-1 : Int)).toNat = 0 from rfl]

/-- C6: witness for the amended theorem. -/
theorem C6_witness :
    get_perfect_score default_config ((⟨"XX", 50⟩ : PlayerWeek) :: [⟨"RB", 9⟩]) =
        get_perfect_score default_config [⟨"RB", 9⟩] ∧
      get_top_score [(5 : ℚ)] (-1) = (0, [5]) :=
  ⟨(C6_silent_handling default_config [⟨"RB", 9⟩] ⟨"XX", 50⟩ (by decide)).1,
    (C6_silent_handling default_config [⟨"RB", 9⟩] ⟨"XX", 50⟩ (by decide)).2
      [(5 : ℚ)] (-1) (by norm_num)⟩

/-- The games-missed computation of `_get_draft_class`: with a nonempty bye
map the player's pro team is looked up (`dict.get`; a missing key yields
Python `None` and the comparison `None > int` raises, modelled as `none`), and
one game is subtracted only when the bye week is not beyond the finished
weeks; with an empty bye map the adjustment is omitted. -/
def games_missed (team_bye : List (String × Int)) (proTeam : String)
    (finished_weeks games_played : Int) : Option Int :=
  if team_bye.length > 0 then
    match team_bye.lookup proTeam with
    | none => none
    | some bye =>
      if bye > finished_weeks then some (finished_weeks - games_played)
      else some (finished_weeks - games_played - 1)
  else some (finished_weeks - games_played)

/-- C7: the games-missed value is weeks elapsed minus games played, less one
exactly when the player's bye week has already occurred (bye ≤ finished
weeks); with an empty bye-week map the adjustment is omitted and no failure
occurs. -/
theorem C7_games_missed (team_bye : List (String × Int)) (proTeam : String)
    (f g : Int) :
    (team_bye = [] → games_missed team_bye proTeam f g = some (f - g)) ∧
      ∀ b : Int, team_bye.lookup proTeam = some b →
        games_missed team_bye proTeam f g =
          some (if b ≤ f then f - g - 1 else f - g) := by
  constructor
  · intro h
    subst h
    rfl
  · intro b hb
    have hlen : team_bye.length > 0 := by
      cases team_bye with
      | nil => simp [List.lookup] at hb
      | cons x xs => simp
    simp only [games_missed, if_pos hlen, hb]
    split_ifs with h1 h2 <;> exact congrArg some (by omega)

/-- C7: witness at a concrete bye map and player. -/
theorem C7_witness : games_missed [("KC", 6)] "KC" 8 7 = some 0 :=
  ((C7_games_missed [("KC", 6)] "KC" 8 7).2 6 (by decide)).trans (by decide)

/-- Function `_get_player_score(player_stats)` of fantasy_stats.py: sums the points of
every week except the week-0 season-total sentinel; there is **no** upper week
cutoff.  The per-week stats mapping is modelled as a list of
(week, points) pairs. -/
def player_score (stats : List (Int × ℚ)) : ℚ :=
  stats.foldl (fun s kv => if kv.1 = 0 then s else s + kv.2) 0

/-- Function `get_player_score(player_stats, num_of_weeks)` of main.py: additionally
skips any week key greater than `num_of_weeks`. -/
def get_player_score_main (stats : List (Int × ℚ)) (num_of_weeks : Int) : ℚ :=
  stats.foldl (fun s kv => if kv.1 = 0 ∨ kv.1 > num_of_weeks then s else s + kv.2) 0

/-- Modelled from the spec (§4.1): the sum of the points of all weeks other
than week 0 and not beyond `max_week`. -/
def spec_aggregate (stats : List (Int × ℚ)) (max_week : Int) : ℚ :=
  ((stats.filter (fun kv => decide (kv.1 ≠ 0 ∧ kv.1 ≤ max_week))).map (fun kv => kv.2)).sum

/-- The week-0-only exclusion actually applied by `_get_player_score`. -/
def spec_aggregate_all (stats : List (Int × ℚ)) : ℚ :=
  ((stats.filter (fun kv => decide (kv.1 ≠ 0))).map (fun kv => kv.2)).sum

lemma player_score_aux (stats : List (Int × ℚ)) : ∀ init : ℚ,
    stats.foldl (fun s kv => if kv.1 = 0 then s else s + kv.2) init
      = init + spec_aggregate_all stats := by
  induction stats with
  | nil => intro init; simp [spec_aggregate_all]
  | cons kv rest ih =>
    intro init
    rw [List.foldl_cons]
    by_cases h : kv.1 = 0
    · rw [if_pos h, ih]
      have hf : spec_aggregate_all (kv :: rest) = spec_aggregate_all rest := by
        simp [spec_aggregate_all, List.filter_cons, h]
      rw [hf]
    · rw [if_neg h, ih]
      have hf : spec_aggregate_all (kv :: rest) = kv.2 + spec_aggregate_all rest := by
        simp [spec_aggregate_all, List.filter_cons, h]
      rw [hf]
      ring

lemma get_player_score_main_aux (mw : Int) (stats : List (Int × ℚ)) : ∀ init : ℚ,
    stats.foldl (fun s kv => if kv.1 = 0 ∨ kv.1 > mw then s else s + kv.2) init
      = init + spec_aggregate stats mw := by
  induction stats with
  | nil => intro init; simp [spec_aggregate]
  | cons kv rest ih =>
    intro init
    rw [List.foldl_cons]
    by_cases h : kv.1 = 0 ∨ kv.1 > mw
    · rw [if_pos h, ih]
      have hnc : ¬ (kv.1 ≠ 0 ∧ kv.1 ≤ mw) := by
        rcases h with h | h
        · intro hc; exact hc.1 h
        · intro hc; exact absurd hc.2 (not_le.mpr h)
      have hf : spec_aggregate (kv :: rest) mw = spec_aggregate rest mw := by
        simp [spec_aggregate, List.filter_cons, hnc]
      rw [hf]
    · rw [if_neg h, ih]
      push_neg at h
      have hc : kv.1 ≠ 0 ∧ kv.1 ≤ mw := ⟨h.1, h.2⟩
      have hf : spec_aggregate (kv :: rest) mw = kv.2 + spec_aggregate rest mw := by
        simp [spec_aggregate, List.filter_cons, hc.1, hc.2]
      rw [hf]
      ring

/-- C5: counterexample.  The class aggregator `_get_player_score` has no
`max_week` cutoff: on the mapping `{0: 100, 5: 10}` with `max_week = 3` it
returns 10, not the claimed 0 (week 5 > 3 should have been skipped). -/
theorem C5_counterexample :
    player_score [(0, 100), (5, 10)] = 10 ∧
      spec_aggregate [(0, 100), (5, 10)] 3 = 0 ∧ ((10 : ℚ) ≠ 0) := by
  refine ⟨?_, ?_, by norm_num⟩
  · norm_num [player_score]
  · norm_num [spec_aggregate, List.filter_cons]

/-- C5 (amended): main.py's `get_player_score` does skip week 0 and every week
beyond `max_week` and equals the claimed filtered sum, while the class
aggregator `_get_player_score` (which feeds the season Players table) skips
only week 0 and sums all other weeks regardless of any cutoff. -/
theorem C5_aggregators (stats : List (Int × ℚ)) (max_week : Int) :
    get_player_score_main stats max_week = spec_aggregate stats max_week ∧
      player_score stats = spec_aggregate_all stats := by
  constructor
  · rw [get_player_score_main, get_player_score_main_aux max_week stats 0, zero_add]
  · rw [player_score, player_score_aux stats 0, zero_add]

/-- Provider player object fields used by `_get_player_scoring`. -/
structure PlayerInfo where
  name : String
  playerId : Int
  proTeam : String
  onTeamId : Int
  position : String
  projected_total_points : ℚ
  total_points : ℚ
  stats : List (Int × ℚ)
deriving DecidableEq

/-- One row of the season Players table. -/
structure PlayerRow where
  playerName : String
  playerId : Int
  currentTeam : String
  position : String
  projectedPoints : ℚ
  totalPoints : ℚ
  diff : ℚ
deriving DecidableEq

/-- The row `_get_player_scoring` builds for one kept player: note the row's
realized total is recomputed from the weekly stats by `_get_player_score`,
not taken from the provider's `total_points` field. -/
def player_row (team_map : List (Int × String)) (p : PlayerInfo) : PlayerRow :=
  { playerName := if p.proTeam ≠ "None" then p.name ++ " (" ++ p.proTeam ++ ")"
      else p.name ++ " (-)",
    playerId := p.playerId,
    currentTeam := (team_map.lookup p.onTeamId).getD "-",
    position := p.position,
    projectedPoints := p.projected_total_points,
    totalPoints := player_score p.stats,
    diff := player_score p.stats - p.projected_total_points }

/-- Python `_get_player_scoring`: skips players whose provider `total_points` and
`projected_total_points` are both exactly 0, and builds a row for the rest. -/
def get_player_scoring (team_map : List (Int × String)) :
    List PlayerInfo → List PlayerRow
  | [] => []
  | p :: rest =>
    if p.total_points = 0 ∧ p.projected_total_points = 0 then
      get_player_scoring team_map rest
    else player_row team_map p :: get_player_scoring team_map rest

lemma get_player_scoring_mem (team_map : List (Int × String)) :
    ∀ (players : List PlayerInfo) (r : PlayerRow),
    r ∈ get_player_scoring team_map players → ∃ p, p ∈ players ∧
      ¬ (p.total_points = 0 ∧ p.projected_total_points = 0) ∧ r = player_row team_map p := by
  intro players
  induction players with
  | nil => intro r hr; simp [get_player_scoring] at hr
  | cons p rest ih =>
    intro r hr
    simp only [get_player_scoring] at hr
    by_cases h : p.total_points = 0 ∧ p.projected_total_points = 0
    · rw [if_pos h] at hr
      obtain ⟨q, hq, hq2, hq3⟩ := ih r hr
      exact ⟨q, List.mem_cons_of_mem _ hq, hq2, hq3⟩
    · rw [if_neg h] at hr
      rcases List.mem_cons.mp hr with rfl | hr'
      · exact ⟨p, List.mem_cons_self _ _, h, rfl⟩
      · obtain ⟨q, hq, hq2, hq3⟩ := ih r hr'
        exact ⟨q, List.mem_cons_of_mem _ hq, hq2, hq3⟩

/-- A player with a nonzero provider season total whose weekly stats hold only
the week-0 sentinel: the built row has realized total 0 and projection 0. -/
def phantom_player : PlayerInfo :=
  { name := "Phantom", playerId := 1, proTeam := "KC", onTeamId := 0, position := "RB",
    projected_total_points := 0, total_points := 5, stats := [(0, 5)] }

/-- A player with both provider totals exactly zero. -/
def zero_player : PlayerInfo :=
  { name := "Zero", playerId := 2, proTeam := "None", onTeamId := 0, position := "WR",
    projected_total_points := 0, total_points := 0, stats := [] }

/-- C9: counterexample.  The both-zero filter tests the provider's
`total_points`, but the row stores a total recomputed from the weekly stats:
`phantom_player` (provider total 5, projection 0, stats only week 0) is kept
and its row has realized total 0 and projected total 0 — a row with both
values zero, contradicting the claimed invariant. -/
theorem C9_counterexample :
    (get_player_scoring [] [phantom_player]).map (fun r => (r.totalPoints, r.projectedPoints))
        = [((0 : ℚ), (0 : ℚ))] ∧
      ¬ ∀ r ∈ get_player_scoring [] [phantom_player],
          ¬ (r.totalPoints = 0 ∧ r.projectedPoints = 0) := by
  constructor
  · norm_num [get_player_scoring, phantom_player, player_row, player_score]
  · intro hall
    have hmem : player_row [] phantom_player ∈ get_player_scoring [] [phantom_player] := by
      norm_num [get_player_scoring, phantom_player]
    have hr := hall (player_row [] phantom_player) hmem
    apply hr
    norm_num [player_row, phantom_player, player_score]

/-- C9 (amended): every row of the Players table comes from a player whose
provider `total_points` and `projected_total_points` are not both zero (a
both-zero player is silently excluded), and the row stores the recomputed
weekly sum, which can itself be zero together with the projection. -/
theorem C9_rows (team_map : List (Int × String)) (players : List PlayerInfo) :
    (∀ r ∈ get_player_scoring team_map players, ∃ p, p ∈ players ∧
        ¬ (p.total_points = 0 ∧ p.projected_total_points = 0) ∧
        r = player_row team_map p) ∧
      ∀ p : PlayerInfo, p.total_points = 0 → p.projected_total_points = 0 →
        get_player_scoring team_map (p :: players) = get_player_scoring team_map players := by
  refine ⟨fun r hr => get_player_scoring_mem team_map players r hr, ?_⟩
  intro p h1 h2
  simp only [get_player_scoring]
  rw [if_pos ⟨h1, h2⟩]

/-- C9: witness — a both-zero player is dropped from the table. -/
theorem C9_witness :
    get_player_scoring [] (zero_player :: [phantom_player]) =
      get_player_scoring [] [phantom_player] :=
  (C9_rows [] [phantom_player]).2 zero_player rfl rfl

lemma perfect_wl_aux_length (cfg : RosterSlotConfig) :
    ∀ (games : List BoxScore) (acc : List String × List String) (w l : List String),
    perfect_wl_aux cfg acc games = some (w, l) →
    w.length = acc.1.length + games.length ∧ l.length = acc.2.length + games.length := by
  intro games
  induction games with
  | nil =>
    intro acc w l h
    simp only [perfect_wl_aux, Option.some.injEq] at h
    subst h
    simp
  | cons g rest ih =>
    intro acc w l h
    simp only [perfect_wl_aux] at h
    split at h
    · rename_i hs aw hh ha
      by_cases hgt : hs > aw
      · rw [if_pos hgt] at h
        obtain ⟨h1, h2⟩ := ih _ w l h
        simp only [List.length_append, List.length_cons, List.length_singleton,
          List.length_nil] at h1 h2 ⊢
        omega
      · rw [if_neg hgt] at h
        obtain ⟨h1, h2⟩ := ih _ w l h
        simp only [List.length_append, List.length_cons, List.length_singleton,
          List.length_nil] at h1 h2 ⊢
        omega
    · exact Option.noConfusion h

lemma sum_map_add_split (f g : String → Nat) : ∀ names : List String,
    (names.map (fun n => f n + g n)).sum = (names.map f).sum + (names.map g).sum := by
  intro names
  induction names with
  | nil => simp
  | cons n ns ih =>
    simp only [List.map_cons, List.sum_cons, ih]
    omega

lemma sum_map_count_ite (x : String) : ∀ names : List String,
    (names.map (fun n => if x = n then (1 : Nat) else 0)).sum = names.count x := by
  intro names
  induction names with
  | nil => simp
  | cons n ns ih =>
    simp only [List.map_cons, List.sum_cons, ih, List.count_cons]
    by_cases h : x = n
    · subst h
      simp only [if_pos rfl, beq_self_eq_true, if_true]
      omega
    · have h2 : ¬ ((n == x) = true) := by
        rw [beq_iff_eq]
        exact fun hc => h hc.symm
      simp only [if_neg h, if_neg h2]
      omega

lemma count_sum_over_names {names : List String} (hnd : names.Nodup) :
    ∀ xs : List String, (∀ x ∈ xs, x ∈ names) →
      (names.map (fun n => xs.count n)).sum = xs.length := by
  intro xs
  induction xs with
  | nil => intro _; simp
  | cons x rest ih =>
    intro hcov
    have hmap : names.map (fun n => (x :: rest).count n)
        = names.map (fun n => rest.count n + if x = n then 1 else 0) := by
      apply List.map_congr_left
      intro n _
      rw [List.count_cons]
      by_cases h : x = n
      · simp [h]
      · have h2 : ¬ ((x == n) = true) := by
          rw [beq_iff_eq]
          exact h
        simp [h, h2]
    rw [hmap, sum_map_add_split, ih (fun y hy => hcov y (List.mem_cons_of_mem _ hy)),
      sum_map_count_ite]
    have hxn : x ∈ names := hcov x (List.mem_cons_self _ _)
    have hone : names.count x = 1 := List.count_eq_one_of_mem hnd hxn
    simp only [List.length_cons, hone]

/-- C10: every processed game appends exactly one name to `winners` and one to
`losers`: for any processed list of games the two lists have length equal to
the number of games, and (for any duplicate-free team list covering the
appearing names) the per-team win counts and loss counts each total the number
of games. -/
theorem C10_one_win_one_loss_per_game (cfg : RosterSlotConfig) (games : List BoxScore)
    (w l : List String) (h : perfect_wl_aux cfg ([], []) games = some (w, l)) :
    w.length = games.length ∧ l.length = games.length ∧
      ∀ names : List String, names.Nodup →
        (∀ x ∈ w, x ∈ names) → (∀ x ∈ l, x ∈ names) →
        (names.map (fun n => w.count n)).sum = games.length ∧
          (names.map (fun n => l.count n)).sum = games.length := by
  obtain ⟨h1, h2⟩ := perfect_wl_aux_length cfg games ([], []) w l h
  simp only [List.length_nil, Nat.zero_add] at h1 h2
  refine ⟨h1, h2, ?_⟩
  intro names hnd hcw hcl
  rw [count_sum_over_names hnd w hcw, count_sum_over_names hnd l hcl]
  exact ⟨h1, h2⟩

/-- Game 1 of the perfect-record scenario: team "T" wins on actual score but
has the lower optimal score. -/
def gameA : BoxScore :=
  { homeTeam := "T", awayTeam := "U", homeScore := 100, awayScore := 50,
    homeProjected := 0, awayProjected := 0,
    homeLineup := [⟨"RB", 10⟩], awayLineup := [⟨"RB", 20⟩] }

/-- Game 2: team "T" loses on actual score but has the higher optimal score. -/
def gameB : BoxScore :=
  { homeTeam := "U", awayTeam := "T", homeScore := 80, awayScore := 30,
    homeProjected := 0, awayProjected := 0,
    homeLineup := [⟨"RB", 5⟩], awayLineup := [⟨"RB", 30⟩] }

/-- C10: witness at a concrete two-game season. -/
theorem C10_witness :
    (["U", "T"] : List String).length = ([gameA, gameB] : List BoxScore).length ∧
      ((["U", "T"] : List String).map
          (fun n => (["U", "T"] : List String).count n)).sum =
        ([gameA, gameB] : List BoxScore).length := by
  have h : perfect_wl_aux flex_only_config ([], []) [gameA, gameB] =
      some (["U", "T"], ["T", "U"]) := by
    norm_num [gameA, gameB, flex_only_config, perfect_wl_aux, get_perfect_score,
      bucket_player, insert_player_score, get_top_score, get_top_score_nat, py_max,
      Int.toNat_ofNat]
  have hmain := C10_one_win_one_loss_per_game flex_only_config [gameA, gameB] _ _ h
  exact ⟨hmain.1, (hmain.2.2 ["U", "T"] (by decide) (by decide) (by decide)).1⟩

lemma row_teams (g : BoxScore) :
    ((make_game_row g).winnerTeam = g.homeTeam ∧ (make_game_row g).loserTeam = g.awayTeam) ∨
      ((make_game_row g).winnerTeam = g.awayTeam ∧
        (make_game_row g).loserTeam = g.homeTeam) := by
  by_cases h : g.homeScore < g.awayScore
  · right
    simp [make_game_row, h]
  · left
    simp [make_game_row, h]

lemma row_count_bound {g : BoxScore} {name : String} (hne : g.homeTeam ≠ g.awayTeam) :
    ((if (make_game_row g).winnerTeam == name then 1 else 0) : Nat) +
      (if (make_game_row g).loserTeam == name then 1 else 0) ≤
      if g.homeTeam = name ∨ g.awayTeam = name then 1 else 0 := by
  rcases row_teams g with ⟨hw, hl⟩ | ⟨hw, hl⟩ <;> rw [hw, hl] <;>
    by_cases h1 : g.homeTeam = name <;> by_cases h2 : g.awayTeam = name <;>
      simp_all

lemma perfect_wl_count_ge (cfg : RosterSlotConfig) (name : String) :
    ∀ (games : List BoxScore) (acc : List String × List String) (w l : List String),
    (∀ g ∈ games, g.homeTeam ≠ g.awayTeam) →
    (∀ g ∈ games, (g.homeTeam = name ∨ g.awayTeam = name) →
      ∃ a b, get_perfect_score cfg g.homeLineup = some a ∧
        get_perfect_score cfg g.awayLineup = some b ∧
        (g.homeTeam = name → b < a) ∧ (g.awayTeam = name → a < b)) →
    perfect_wl_aux cfg acc games = some (w, l) →
    acc.1.count name + (actual_wins name games + actual_losses name games) ≤
      w.count name := by
  intro games
  induction games with
  | nil =>
    intro acc w l _ _ h
    simp only [perfect_wl_aux, Option.some.injEq] at h
    subst h
    simp [actual_wins, actual_losses]
  | cons g rest ih =>
    intro acc w l hdist hopt h
    have hgmem : g ∈ g :: rest := List.mem_cons_self _ _
    have hdist' : ∀ x ∈ rest, x.homeTeam ≠ x.awayTeam :=
      fun x hx => hdist x (List.mem_cons_of_mem _ hx)
    have hopt' := fun x hx => hopt x (List.mem_cons_of_mem g hx)
    have hAW : actual_wins name (g :: rest)
        = actual_wins name rest + (if (make_game_row g).winnerTeam == name then 1 else 0) := by
      simp [actual_wins, List.countP_cons]
    have hAL : actual_losses name (g :: rest)
        = actual_losses name rest + (if (make_game_row g).loserTeam == name then 1 else 0) := by
      simp [actual_losses, List.countP_cons]
    simp only [perfect_wl_aux] at h
    split at h
    · rename_i hs aw hh ha
      by_cases hgt : hs > aw
      · rw [if_pos hgt] at h
        have hrec := ih (acc.1 ++ [g.homeTeam], acc.2 ++ [g.awayTeam]) w l hdist' hopt' h
        have hacc : (acc.1 ++ [g.homeTeam]).count name
            = acc.1.count name + (if g.homeTeam = name then 1 else 0) := by
          rw [List.count_append, List.count_singleton']
        rw [hacc] at hrec
        have hkey : ((if (make_game_row g).winnerTeam == name then 1 else 0) : Nat) +
            (if (make_game_row g).loserTeam == name then 1 else 0) ≤
            if g.homeTeam = name then 1 else 0 := by
          by_cases h2 : g.awayTeam = name
          · by_cases h1 : g.homeTeam = name
            · exact absurd (h1.trans h2.symm) (hdist g hgmem)
            · obtain ⟨a, b, hha, hab, _, himp⟩ := hopt g hgmem (Or.inr h2)
              have hae : a = hs := Option.some.inj (hha.symm.trans hh)
              have hbe : b = aw := Option.some.inj (hab.symm.trans ha)
              have hlt : hs < aw := by
                rw [← hae, ← hbe]
                exact himp h2
              exact absurd hgt (lt_asymm hlt)
          · have hb := @row_count_bound g name (hdist g hgmem)
            by_cases h1 : g.homeTeam = name
            · simpa [h1, h2] using hb
            · simpa [h1, h2] using hb
        rw [hAW, hAL]
        omega
      · rw [if_neg hgt] at h
        have hrec := ih (acc.1 ++ [g.awayTeam], acc.2 ++ [g.homeTeam]) w l hdist' hopt' h
        have hacc : (acc.1 ++ [g.awayTeam]).count name
            = acc.1.count name + (if g.awayTeam = name then 1 else 0) := by
          rw [List.count_append, List.count_singleton']
        rw [hacc] at hrec
        have hkey : ((if (make_game_row g).winnerTeam == name then 1 else 0) : Nat) +
            (if (make_game_row g).loserTeam == name then 1 else 0) ≤
            if g.awayTeam = name then 1 else 0 := by
          by_cases h1 : g.homeTeam = name
          · by_cases h2 : g.awayTeam = name
            · exact absurd (h1.trans h2.symm) (hdist g hgmem)
            · obtain ⟨a, b, hha, hab, himp, _⟩ := hopt g hgmem (Or.inl h1)
              have hae : a = hs := Option.some.inj (hha.symm.trans hh)
              have hbe : b = aw := Option.some.inj (hab.symm.trans ha)
              have hlt : aw < hs := by
                rw [← hae, ← hbe]
                exact himp h1
              exact absurd hlt hgt
          · have hb := @row_count_bound g name (hdist g hgmem)
            by_cases h2 : g.awayTeam = name
            · simpa [h1, h2] using hb
            · simpa [h1, h2] using hb
        rw [hAW, hAL]
        omega
    · exact Option.noConfusion h

/-- C8 (amended): if a team's optimal score strictly exceeds its opponent's in
**every** game it plays (not only the games it lost), then its perfect-win
count is at least its actual wins plus its actual losses — in particular it
exceeds the actual wins by at least the number of lost games.  (Actual wins
and losses are counted from the games table by its winner/loser convention.) -/
theorem C8_perfect_wins_bound (cfg : RosterSlotConfig) (games : List BoxScore)
    (name : String) (w l : List String)
    (hdist : ∀ g ∈ games, g.homeTeam ≠ g.awayTeam)
    (hopt : ∀ g ∈ games, (g.homeTeam = name ∨ g.awayTeam = name) →
      ∃ a b, get_perfect_score cfg g.homeLineup = some a ∧
        get_perfect_score cfg g.awayLineup = some b ∧
        (g.homeTeam = name → b < a) ∧ (g.awayTeam = name → a < b))
    (h : perfect_wl_aux cfg ([], []) games = some (w, l)) :
    actual_wins name games + actual_losses name games ≤ w.count name := by
  have hrec := perfect_wl_count_ge cfg name games ([], []) w l hdist hopt h
  simpa using hrec

/-- C8: counterexample to the claim as stated.  Team "T" actually wins `gameA`
and loses `gameB`; in its only lost game its optimal score (30) strictly
exceeds the opponent's (5), so the claim's hypothesis holds, yet "T" has
exactly 1 perfect win, 1 actual win and 1 lost game, and 1 < 1 + 1: the
perfect-win count does not exceed the actual wins by the number of lost
games (the won game flips, 10 < 20, to a perfect loss). -/
theorem C8_counterexample :
    actual_wins "T" [gameA, gameB] = 1 ∧ actual_losses "T" [gameA, gameB] = 1 ∧
      (make_game_row gameA).loserTeam = "U" ∧ (make_game_row gameB).loserTeam = "T" ∧
      get_perfect_score flex_only_config gameB.awayLineup = some 30 ∧
      get_perfect_score flex_only_config gameB.homeLineup = some 5 ∧ ((5 : ℚ) < 30) ∧
      perfect_wins flex_only_config "T" [gameA, gameB] = some 1 ∧
      ¬ (1 + 1 ≤ 1) := by
  refine ⟨?_, ?_, ?_, ?_, ?_, ?_, by norm_num, ?_, by norm_num⟩ <;>
    norm_num [actual_wins, actual_losses, gameA, gameB, make_game_row, flex_only_config,
      perfect_wins, perfect_wl_aux, get_perfect_score, bucket_player, insert_player_score,
      get_top_score, get_top_score_nat, py_max, Int.toNat_ofNat, List.countP_cons] <;>
    decide

/-- C8: witness for the amended bound on the one-game season `gameB`. -/
theorem C8_witness : actual_wins "T" [gameB] + actual_losses "T" [gameB] ≤
    (["T"] : List String).count "T" := by
  have h : perfect_wl_aux flex_only_config ([], []) [gameB] = some (["T"], ["U"]) := by
    norm_num [gameB, flex_only_config, perfect_wl_aux, get_perfect_score, bucket_player,
      insert_player_score, get_top_score, get_top_score_nat, py_max, Int.toNat_ofNat]
  refine C8_perfect_wins_bound flex_only_config [gameB] "T" ["T"] ["U"] ?_ ?_ h
  · intro g hg
    rw [List.mem_singleton] at hg
    subst hg
    decide
  · intro g hg _
    rw [List.mem_singleton] at hg
    subst hg
    refine ⟨5, 30, ?_, ?_, ?_, ?_⟩
    · norm_num [gameB, flex_only_config, get_perfect_score, bucket_player,
        insert_player_score, get_top_score, get_top_score_nat, py_max, Int.toNat_ofNat]
    · norm_num [gameB, flex_only_config, get_perfect_score, bucket_player,
        insert_player_score, get_top_score, get_top_score_nat, py_max, Int.toNat_ofNat]
    · intro hh
      exact absurd hh (by decide)
    · intro _
      norm_num

end FantasyStats
